import Mathlib

/-!
Shallow embedding of `packages/api/src/controllers/usage.ts` from the
livepeer-studio repository: the plan-limit scan, the overage and
percentage-of-limit calculators, the usage cache sync loop of the
`POST /update` handler, and the time-window resolution of the query handlers.

JavaScript numbers are modelled as rationals extended with NaN (`JNum`):
every arithmetic step the embedded code performs on the values of interest is
exact, and an `undefined` operand coerces to NaN exactly as in JS arithmetic.
-/

/-- A JavaScript number: a finite value (modelled exactly as a rational) or
NaN. An `undefined` operand entering arithmetic becomes NaN, and these
operations propagate NaN. -/
inductive JNum where
  | num (q : ℚ)
  | nan
  deriving DecidableEq

/-- Coercion of a possibly-absent field value (`usage?.X`) into JS
arithmetic: `undefined` coerces to NaN. -/
def ofField : Option ℚ → JNum
  | some q => JNum.num q
  | none => JNum.nan

/-- JS subtraction; NaN absorbs. -/
def JNum.sub : JNum → JNum → JNum
  | JNum.num a, JNum.num b => JNum.num (a - b)
  | _, _ => JNum.nan

/-- JS multiplication; NaN absorbs. -/
def JNum.mul : JNum → JNum → JNum
  | JNum.num a, JNum.num b => JNum.num (a * b)
  | _, _ => JNum.nan

/-- JS division; NaN absorbs. Division by zero is never exercised by the
embedded code (every division site sits under a `limit !== 0` guard), so the
zero-divisor case is mapped to NaN rather than modelling JS infinities. -/
def JNum.div : JNum → JNum → JNum
  | JNum.num a, JNum.num b => if b = 0 then JNum.nan else JNum.num (a / b)
  | _, _ => JNum.nan

/-- `Math.max(x, 0)`: NaN propagates, a number is clamped below by 0. -/
def JNum.max0 : JNum → JNum
  | JNum.num a => JNum.num (max a 0)
  | JNum.nan => JNum.nan

/-- ASCII lowercasing of a string, modelling `String.prototype.toLowerCase`
on the plan line-item names the code compares (all ASCII). -/
def jsToLowerCase (s : String) : String := String.mk (s.data.map Char.toLower)

/-- One plan line-item `{name, limit}` of a product's `usage` array. -/
structure LineItem where
  name : String
  limit : ℚ
  deriving DecidableEq

/-- A subscription product; its `usage` array of limit line-items may be
absent (`product?.usage`). -/
structure Product where
  usage : Option (List LineItem)
  deriving DecidableEq

/-- The `limits` object built by the scan at usage.ts lines 86-95 and again
at 116-125. The source stores the "delivery" line-item's limit under the key
`streaming`. An unassigned field is `undefined` (`none`). -/
structure PlanLimits where
  transcoding : Option ℚ := none
  streaming : Option ℚ := none
  storage : Option ℚ := none
  deriving DecidableEq

/-- One `forEach` step of the limit scan: three independent case-insensitive
name tests, each assigning (hence overwriting) the matched limit field. -/
def scanItem (limits : PlanLimits) (item : LineItem) : PlanLimits :=
  let limits := if jsToLowerCase item.name = "transcoding" then
    { limits with transcoding := some item.limit } else limits
  let limits := if jsToLowerCase item.name = "delivery" then
    { limits with streaming := some item.limit } else limits
  if jsToLowerCase item.name = "storage" then
    { limits with storage := some item.limit } else limits

/-- The plan-limit resolution scan shared verbatim by `calculateOverUsage`
and `getUsagePercentageOfLimit`: `limits` starts out empty and is filled by
the `forEach` only when `product?.usage` is present (an empty array is truthy
in JS and yields the same empty result). -/
def resolveLimits (product : Option Product) : PlanLimits :=
  match product with
  | some p =>
    match p.usage with
    | some items => items.foldl scanItem {}
    | none => {}
  | none => {}

/-- JS `x || 0` on an optional numeric limit: `undefined` and `0` are both
falsy and give 0; any other number passes through. -/
def orZero : Option ℚ → ℚ
  | some v => if v = 0 then 0 else v
  | none => 0

/-- The aggregate usage object returned by the metering query; any field may
be absent from the JSON body. -/
structure UsageAggregate where
  TotalUsageMins : Option ℚ := none
  DeliveryUsageMins : Option ℚ := none
  StorageUsageMins : Option ℚ := none
  deriving DecidableEq

/-- Result shape of both `calculateOverUsage` (the `overUsage` object) and
`getUsagePercentageOfLimit` (the `usagePercentageOfLimit` object). -/
structure UsageTriple where
  TotalUsageMins : JNum
  DeliveryUsageMins : JNum
  StorageUsageMins : JNum
  deriving DecidableEq

/-- `calculateOverUsage(product, usage)` (usage.ts 85-113): resolve the plan
limits, then for each metric compute `Math.max(usage?.X - (limit || 0), 0)`.
A missing usage field makes the subtraction NaN, which `Math.max`
propagates. -/
def calculateOverUsage (product : Option Product)
    (usage : Option UsageAggregate) : UsageTriple :=
  let limits := resolveLimits product
  { TotalUsageMins :=
      ((ofField (usage.bind (fun u => u.TotalUsageMins))).sub
        (JNum.num (orZero limits.transcoding))).max0
    DeliveryUsageMins :=
      ((ofField (usage.bind (fun u => u.DeliveryUsageMins))).sub
        (JNum.num (orZero limits.streaming))).max0
    StorageUsageMins :=
      ((ofField (usage.bind (fun u => u.StorageUsageMins))).sub
        (JNum.num (orZero limits.storage))).max0 }

/-- One ternary of `getUsagePercentageOfLimit` (usage.ts 127-142):
`limit && limit !== 0 ? Math.max((usage?.X / limit) * 100, 0) : 0`. An absent
limit is falsy and `0` is falsy, so the division happens only for a present
non-zero limit. -/
def percentField (limit : Option ℚ) (u : Option ℚ) : JNum :=
  match limit with
  | some l =>
    if l ≠ 0 then (((ofField u).div (JNum.num l)).mul (JNum.num 100)).max0
    else JNum.num 0
  | none => JNum.num 0

/-- `getUsagePercentageOfLimit(product, usage)` (usage.ts 115-145): resolve
the plan limits (same scan), then apply the guarded percentage ternary to
each metric. -/
def getUsagePercentageOfLimit (product : Option Product)
    (usage : Option UsageAggregate) : UsageTriple :=
  let limits := resolveLimits product
  { TotalUsageMins :=
      percentField limits.transcoding (usage.bind (fun u => u.TotalUsageMins))
    DeliveryUsageMins :=
      percentField limits.streaming (usage.bind (fun u => u.DeliveryUsageMins))
    StorageUsageMins :=
      percentField limits.storage (usage.bind (fun u => u.StorageUsageMins)) }

/-- The plan of the end-to-end scenario in the spec: limits
`{transcoding: 1000, delivery: 2000, storage: 500}`. -/
def scenarioProduct : Option Product :=
  some ⟨some [⟨"transcoding", 1000⟩, ⟨"delivery", 2000⟩, ⟨"storage", 500⟩]⟩

/-- The usage of the end-to-end scenario in the spec:
`{TotalUsageMins: 1200, DeliveryUsageMins: 1500, StorageUsageMins: 600}`. -/
def scenarioUsage : Option UsageAggregate :=
  some ⟨some 1200, some 1500, some 600⟩

/-- One per-period row of `db.stream.usageHistory` / a cached `usage` object:
`{id, date, ...metrics}`. The `id` is the stable period identifier. -/
structure UsageRow where
  id : String
  date : ℚ
  TotalUsageMins : ℚ := 0
  DeliveryUsageMins : ℚ := 0
  StorageUsageMins : ℚ := 0
  deriving DecidableEq

/-- The stored form `{kind: "usage", ...row}` written by the sync loop. -/
structure StoredUsage where
  kind : String
  id : String
  date : ℚ
  TotalUsageMins : ℚ
  DeliveryUsageMins : ℚ
  StorageUsageMins : ℚ
  deriving DecidableEq

/-- Spread `{kind: "usage", ...row}`. -/
def mkStoredUsage (r : UsageRow) : StoredUsage :=
  ⟨"usage", r.id, r.date, r.TotalUsageMins, r.DeliveryUsageMins,
    r.StorageUsageMins⟩

/-- The object store keyed by string ids: a keyed table is a partial map
from key to record. -/
def UsageStore : Type := String → Option StoredUsage

/-- `req.store.get(key)`. -/
def storeGet (st : UsageStore) (key : String) : Option StoredUsage := st key

/-- `req.store.replace(record)`: rebind the record's key (the record is the
whole new value — a wholesale replacement, never a merge). -/
def storeReplace (st : UsageStore) (key : String) (v : StoredUsage) :
    UsageStore :=
  fun k => if k = key then some v else st k

/-- `req.store.create(record)`: bind a fresh key to the record. In the keyed
table this writes the same binding as `replace`; the source only calls it
when `get` returned nothing. -/
def storeCreate (st : UsageStore) (key : String) (v : StoredUsage) :
    UsageStore :=
  fun k => if k = key then some v else st k

/-- The cache key `` `usage/${row.id}` `` of a period row. -/
def usageKey (r : UsageRow) : String := "usage/" ++ r.id

/-- One iteration of the sync loop (usage.ts 316-324): look the period up in
the cache; if present, replace it with the freshly fetched row, otherwise
create it. -/
def upsertUsageRow (st : UsageStore) (r : UsageRow) : UsageStore :=
  match storeGet st (usageKey r) with
  | some _ => storeReplace st (usageKey r) (mkStoredUsage r)
  | none => storeCreate st (usageKey r) (mkStoredUsage r)

/-- The whole sync loop: `for (const row of usageHistory) { ... }`. -/
def syncUsageRows (st : UsageStore) (usageHistory : List UsageRow) :
    UsageStore :=
  usageHistory.foldl upsertUsageRow st

/-- The last row of a fetched history whose cache key is `k` (the binding the
sync loop leaves at `k`), if any. -/
def lastRowFor (usageHistory : List UsageRow) (k : String) : Option UsageRow :=
  match usageHistory with
  | [] => none
  | r :: t =>
    match lastRowFor t k with
    | some x => some x
    | none => if usageKey r = k then some r else none

/-- `+new Date(2020, 0)`: the fixed January 2020 epoch start (epoch
milliseconds of 2020-01-01T00:00:00 UTC; the source value is the host's
local-time rendering of the same calendar instant). -/
def dateJan2020 : ℚ := 1577836800000

/-- A value a resolved time bound can hold: the caller's raw query-string
value, passed through unchanged, or a numeric default computed by the
handler. -/
inductive TimeVal where
  | str (s : String)
  | num (q : ℚ)
  deriving DecidableEq

/-- JS falsiness of an optional query-string parameter (`!fromTime`):
absent (`undefined`) and the empty string are the falsy string values. -/
def jsFalsyParam : Option String → Bool
  | none => true
  | some s => s = ""

/-- `order: "data->>'date' DESC"` with `limit: 1` over the `usage` table:
sort by date descending, keep the first row. -/
def latestUsageRows (table : List UsageRow) : List UsageRow :=
  (table.mergeSort (fun a b => b.date ≤ a.date)).take 1

/-- The watermark branch of the `POST /update` window resolution (usage.ts
292-305): the `date` of the most recent cached usage row, or the January
2020 epoch start when the cache is empty. -/
def watermarkFrom (table : List UsageRow) : TimeVal :=
  match latestUsageRows table with
  | row :: _ => TimeVal.num row.date
  | [] => TimeVal.num dateJan2020

/-- Resolution of `fromTime` in `POST /update`: a truthy caller-supplied
value is used unchanged; otherwise the watermark query decides. -/
def resolveUpdateFrom : Option String → List UsageRow → TimeVal
  | some s, table => if s = "" then watermarkFrom table else TimeVal.str s
  | none, table => watermarkFrom table

/-- Resolution of `toTime` in `POST /update` (usage.ts 307-309): a truthy
caller-supplied value is used unchanged; otherwise `+new Date()` (the
current time `now`). -/
def resolveUpdateTo : Option String → ℚ → TimeVal
  | some s, now => if s = "" then TimeVal.num now else TimeVal.str s
  | none, now => TimeVal.num now

/-- The window resolution block shared by `GET /`, `GET /user` and
`GET /user/overage` (usage.ts 183-186, 204-207, 233-236): only when BOTH
parameters are falsy are they replaced by the January 2020 epoch start and
the current time; otherwise both raw values pass through (an absent one
stays `undefined`). -/
def resolveQueryWindow (fromTime toTime : Option String) (now : ℚ) :
    Option TimeVal × Option TimeVal :=
  if jsFalsyParam fromTime && jsFalsyParam toTime then
    (some (TimeVal.num dateJan2020), some (TimeVal.num now))
  else
    (fromTime.map TimeVal.str, toTime.map TimeVal.str)

/-- A response the `POST /update` handler sends with `res.json`. -/
inductive UpdateResponse (ρ : Type) where
  | report (result : ρ)
  | history (rows : List UsageRow)

/-- The `POST /update` handler (usage.ts 278-328) as a function of its
inputs: the three query parameters, the result the external `reportUsage`
call would produce, the current `usage` table (for the watermark query), the
per-window fetched history (`db.stream.usageHistory`), the object store the
loop writes, and the current time. It returns the sequence of responses the
handler attempts to send and the final store. The `newUsageReport` branch
sends its response but does not return from the handler, so the sync and a
second send still follow. -/
def postUpdate {ρ : Type} (newUsageReport fromTime toTime : Option String)
    (reportResult : ρ) (usageTable : List UsageRow)
    (fetchHistory : TimeVal → TimeVal → List UsageRow)
    (store : UsageStore) (now : ℚ) :
    List (UpdateResponse ρ) × UsageStore :=
  let early := if newUsageReport = some "true" then
    [UpdateResponse.report reportResult] else []
  let fromT := resolveUpdateFrom fromTime usageTable
  let toT := resolveUpdateTo toTime now
  let usageHistory := fetchHistory fromT toT
  (early ++ [UpdateResponse.history usageHistory],
    syncUsageRows store usageHistory)

/-- The limit of the LAST line-item of `items` whose lowercased name equals
`nm`, if any: the value a sequence of overwriting assignments leaves behind. -/
def lastMatch : List LineItem → String → Option ℚ
  | [], _ => none
  | r :: t, nm =>
    match lastMatch t nm with
    | some v => some v
    | none => if jsToLowerCase r.name = nm then some r.limit else none

example : resolveLimits scenarioProduct = ⟨some 1000, some 2000, some 500⟩ := by
  decide

example : calculateOverUsage scenarioProduct scenarioUsage =
    ⟨JNum.num 200, JNum.num 0, JNum.num 100⟩ := by
  simp [calculateOverUsage, scenarioProduct, scenarioUsage, resolveLimits,
    scanItem, orZero, ofField, JNum.sub, JNum.max0, jsToLowerCase]
  norm_num

example : getUsagePercentageOfLimit scenarioProduct scenarioUsage =
    ⟨JNum.num 120, JNum.num 75, JNum.num 120⟩ := by
  simp [getUsagePercentageOfLimit, scenarioProduct, scenarioUsage,
    resolveLimits, scanItem, percentField, ofField, JNum.div, JNum.mul,
    JNum.max0, jsToLowerCase]
  norm_num

/-- `x || 0` agrees with defaulting an absent limit to 0. -/
theorem orZero_eq_getD (o : Option ℚ) : orZero o = o.getD 0 := by
  cases o with
  | none => rfl
  | some v =>
    by_cases hv : v = 0
    · simp [orZero, hv]
    · simp [orZero, hv]

/-- C1 counterexample: in the end-to-end scenario the transcoding overage
field is not 100 (the code computes `max(1200 - 1000, 0) = 200`). -/
theorem scenarioOverage_ne_100 :
    ¬ (calculateOverUsage scenarioProduct scenarioUsage).TotalUsageMins =
      JNum.num 100 := by
  have h : calculateOverUsage scenarioProduct scenarioUsage =
      ⟨JNum.num 200, JNum.num 0, JNum.num 100⟩ := by
    simp [calculateOverUsage, scenarioProduct, scenarioUsage, resolveLimits,
      scanItem, orZero, ofField, JNum.sub, JNum.max0, jsToLowerCase]
    norm_num
  rw [h]
  decide

/-- C1 (amended): for plan limits {transcoding: 1000, delivery: 2000,
storage: 500} and usage {TotalUsageMins: 1200, DeliveryUsageMins: 1500,
StorageUsageMins: 600}, `calculateOverUsage` returns overage {200, 0, 100}
for (total, delivery, storage) and `getUsagePercentageOfLimit` returns
percentages {120, 75, 120}. -/
theorem scenarioOverageAndPercentages :
    calculateOverUsage scenarioProduct scenarioUsage =
      ⟨JNum.num 200, JNum.num 0, JNum.num 100⟩ ∧
    getUsagePercentageOfLimit scenarioProduct scenarioUsage =
      ⟨JNum.num 120, JNum.num 75, JNum.num 120⟩ := by
  constructor
  · simp [calculateOverUsage, scenarioProduct, scenarioUsage, resolveLimits,
      scanItem, orZero, ofField, JNum.sub, JNum.max0, jsToLowerCase]
    norm_num
  · simp [getUsagePercentageOfLimit, scenarioProduct, scenarioUsage,
      resolveLimits, scanItem, percentField, ofField, JNum.div, JNum.mul,
      JNum.max0, jsToLowerCase]
    norm_num

/-- C2 counterexample: with no usage aggregate at all and an empty plan,
the transcoding overage field is NaN (`undefined - 0` is NaN and `Math.max`
propagates it), not the well-defined number `max(0 - (limit or 0), 0) = 0`
the claim predicts. -/
theorem missingUsage_overage_nan_cex :
    (calculateOverUsage none none).TotalUsageMins = JNum.nan ∧
      JNum.nan ≠ JNum.num (max (0 - orZero none) 0) := by
  constructor
  · rfl
  · intro h
    exact JNum.noConfusion h

/-- C2 (amended): `calculateOverUsage` is total, but a missing or undefined
usage value for a metric makes that metric's overage field NaN — the
subtraction on `undefined` yields NaN which `Math.max` propagates — rather
than the number `max(0 - (limit or 0), 0)`. -/
theorem calculateOverUsage_missing_nan (product : Option Product)
    (usage : Option UsageAggregate) :
    (usage.bind (fun u => u.TotalUsageMins) = none →
      (calculateOverUsage product usage).TotalUsageMins = JNum.nan) ∧
    (usage.bind (fun u => u.DeliveryUsageMins) = none →
      (calculateOverUsage product usage).DeliveryUsageMins = JNum.nan) ∧
    (usage.bind (fun u => u.StorageUsageMins) = none →
      (calculateOverUsage product usage).StorageUsageMins = JNum.nan) := by
  refine ⟨fun h => ?_, fun h => ?_, fun h => ?_⟩ <;>
    simp [calculateOverUsage, h, ofField, JNum.sub, JNum.max0]

/-- Witness for C2 amended: the hypotheses are satisfiable (absent usage
aggregate) and the theorem then evaluates the overage fields to NaN. -/
theorem calculateOverUsage_missing_nan_witness :
    (calculateOverUsage none none).TotalUsageMins = JNum.nan ∧
    (calculateOverUsage none none).DeliveryUsageMins = JNum.nan :=
  ⟨(calculateOverUsage_missing_nan none none).1 rfl,
   (calculateOverUsage_missing_nan none none).2.1 rfl⟩

/-- C5: when the resolved limits lack a metric's limit, the full
(non-negative, present) usage of that metric is counted as overage. -/
theorem missingLimit_fullOverage (product : Option Product)
    (usage : Option UsageAggregate) (u : ℚ)
    (hl : (resolveLimits product).transcoding = none)
    (hu : usage.bind (fun x => x.TotalUsageMins) = some u)
    (hge : 0 ≤ u) :
    (calculateOverUsage product usage).TotalUsageMins = JNum.num u := by
  simp [calculateOverUsage, hl, hu, ofField, JNum.sub, JNum.max0, orZero]
  exact hge

/-- Witness for C5: `limits = {}` (no product) and `TotalUsageMins = 500`
give a transcoding overage of 500. -/
theorem missingLimit_fullOverage_witness :
    (calculateOverUsage none (some ⟨some 500, none, none⟩)).TotalUsageMins =
      JNum.num 500 :=
  missingLimit_fullOverage none (some ⟨some 500, none, none⟩) 500 rfl rfl
    (by norm_num)

/-- C6: the percentage computation never divides by zero — an absent or zero
limit short-circuits each metric to exactly 0, and a present non-zero limit
yields `max((usageValue / limit) * 100, 0)`. -/
theorem percentageZeroLimitGuard (product : Option Product)
    (usage : Option UsageAggregate) :
    ((resolveLimits product).transcoding = none ∨
        (resolveLimits product).transcoding = some 0 →
      (getUsagePercentageOfLimit product usage).TotalUsageMins = JNum.num 0) ∧
    (∀ l : ℚ, (resolveLimits product).transcoding = some l → l ≠ 0 →
      (getUsagePercentageOfLimit product usage).TotalUsageMins =
        (((ofField (usage.bind (fun u => u.TotalUsageMins))).div
          (JNum.num l)).mul (JNum.num 100)).max0) ∧
    ((resolveLimits product).streaming = none ∨
        (resolveLimits product).streaming = some 0 →
      (getUsagePercentageOfLimit product usage).DeliveryUsageMins =
        JNum.num 0) ∧
    (∀ l : ℚ, (resolveLimits product).streaming = some l → l ≠ 0 →
      (getUsagePercentageOfLimit product usage).DeliveryUsageMins =
        (((ofField (usage.bind (fun u => u.DeliveryUsageMins))).div
          (JNum.num l)).mul (JNum.num 100)).max0) ∧
    ((resolveLimits product).storage = none ∨
        (resolveLimits product).storage = some 0 →
      (getUsagePercentageOfLimit product usage).StorageUsageMins =
        JNum.num 0) ∧
    (∀ l : ℚ, (resolveLimits product).storage = some l → l ≠ 0 →
      (getUsagePercentageOfLimit product usage).StorageUsageMins =
        (((ofField (usage.bind (fun u => u.StorageUsageMins))).div
          (JNum.num l)).mul (JNum.num 100)).max0) := by
  refine ⟨fun h => ?_, fun l hl hne => ?_, fun h => ?_, fun l hl hne => ?_,
    fun h => ?_, fun l hl hne => ?_⟩
  · rcases h with h | h <;> simp [getUsagePercentageOfLimit, percentField, h]
  · simp [getUsagePercentageOfLimit, percentField, hl, hne]
  · rcases h with h | h <;> simp [getUsagePercentageOfLimit, percentField, h]
  · simp [getUsagePercentageOfLimit, percentField, hl, hne]
  · rcases h with h | h <;> simp [getUsagePercentageOfLimit, percentField, h]
  · simp [getUsagePercentageOfLimit, percentField, hl, hne]

/-- Witness for C6: a zero transcoding limit gives percentage exactly 0, and
the scenario plan's non-zero limit takes the division branch. -/
theorem percentageZeroLimitGuard_witness :
    (getUsagePercentageOfLimit (some ⟨some [⟨"transcoding", 0⟩]⟩)
      (some ⟨some 1200, none, none⟩)).TotalUsageMins = JNum.num 0 ∧
    (getUsagePercentageOfLimit scenarioProduct scenarioUsage).TotalUsageMins =
      (((ofField ((scenarioUsage).bind (fun u => u.TotalUsageMins))).div
        (JNum.num 1000)).mul (JNum.num 100)).max0 :=
  ⟨(percentageZeroLimitGuard (some ⟨some [⟨"transcoding", 0⟩]⟩)
      (some ⟨some 1200, none, none⟩)).1 (Or.inr (by decide)),
   (percentageZeroLimitGuard scenarioProduct scenarioUsage).2.1 1000
      (by decide) (by norm_num)⟩

/-- C8: with all usage values present and non-negative and all present limits
non-negative, every overage field equals
`max(usageValue - (limit defaulted to 0), 0)` and is non-negative. -/
theorem calculateOverUsage_nonneg (product : Option Product)
    (agg : UsageAggregate) (tu du su : ℚ)
    (ht : agg.TotalUsageMins = some tu)
    (hd : agg.DeliveryUsageMins = some du)
    (hs : agg.StorageUsageMins = some su)
    (htu : 0 ≤ tu) (hdu : 0 ≤ du) (hsu : 0 ≤ su)
    (hlims : ∀ q : ℚ, ((resolveLimits product).transcoding = some q ∨
        (resolveLimits product).streaming = some q ∨
        (resolveLimits product).storage = some q) → 0 ≤ q) :
    ((calculateOverUsage product (some agg)).TotalUsageMins =
        JNum.num (max (tu - ((resolveLimits product).transcoding.getD 0)) 0) ∧
      0 ≤ max (tu - ((resolveLimits product).transcoding.getD 0)) 0) ∧
    ((calculateOverUsage product (some agg)).DeliveryUsageMins =
        JNum.num (max (du - ((resolveLimits product).streaming.getD 0)) 0) ∧
      0 ≤ max (du - ((resolveLimits product).streaming.getD 0)) 0) ∧
    ((calculateOverUsage product (some agg)).StorageUsageMins =
        JNum.num (max (su - ((resolveLimits product).storage.getD 0)) 0) ∧
      0 ≤ max (su - ((resolveLimits product).storage.getD 0)) 0) := by
  refine ⟨⟨?_, le_max_right _ _⟩, ⟨?_, le_max_right _ _⟩,
    ⟨?_, le_max_right _ _⟩⟩ <;>
    simp [calculateOverUsage, ht, hd, hs, ofField, JNum.sub, JNum.max0,
      orZero_eq_getD]

/-- Witness for C8 at the end-to-end scenario values. -/
theorem calculateOverUsage_nonneg_witness :
    (calculateOverUsage scenarioProduct
        (some ⟨some 1200, some 1500, some 600⟩)).TotalUsageMins =
      JNum.num
        (max ((1200 : ℚ) -
          ((resolveLimits scenarioProduct).transcoding.getD 0)) 0) ∧
    0 ≤ max ((1200 : ℚ) -
        ((resolveLimits scenarioProduct).transcoding.getD 0)) 0 := by
  have hL : resolveLimits scenarioProduct =
      ⟨some 1000, some 2000, some 500⟩ := by decide
  have h := calculateOverUsage_nonneg scenarioProduct
    ⟨some 1200, some 1500, some 600⟩ 1200 1500 600 rfl rfl rfl
    (by norm_num) (by norm_num) (by norm_num)
    (by intro q hq; rw [hL] at hq; simp at hq;
        rcases hq with rfl | rfl | rfl <;> norm_num)
  exact ⟨h.1.1, h.1.2⟩

theorem scanItem_transcoding (acc : PlanLimits) (r : LineItem) :
    (scanItem acc r).transcoding =
      if jsToLowerCase r.name = "transcoding" then some r.limit
      else acc.transcoding := by
  by_cases hA : jsToLowerCase r.name = "transcoding" <;>
  by_cases hB : jsToLowerCase r.name = "delivery" <;>
  by_cases hC : jsToLowerCase r.name = "storage" <;>
  simp [scanItem, hA, hB, hC]

theorem scanItem_streaming (acc : PlanLimits) (r : LineItem) :
    (scanItem acc r).streaming =
      if jsToLowerCase r.name = "delivery" then some r.limit
      else acc.streaming := by
  by_cases hA : jsToLowerCase r.name = "transcoding" <;>
  by_cases hB : jsToLowerCase r.name = "delivery" <;>
  by_cases hC : jsToLowerCase r.name = "storage" <;>
  simp [scanItem, hA, hB, hC]

theorem scanItem_storage (acc : PlanLimits) (r : LineItem) :
    (scanItem acc r).storage =
      if jsToLowerCase r.name = "storage" then some r.limit
      else acc.storage := by
  by_cases hA : jsToLowerCase r.name = "transcoding" <;>
  by_cases hB : jsToLowerCase r.name = "delivery" <;>
  by_cases hC : jsToLowerCase r.name = "storage" <;>
  simp [scanItem, hA, hB, hC]

theorem foldl_scanItem_transcoding (items : List LineItem) (acc : PlanLimits) :
    (items.foldl scanItem acc).transcoding =
      match lastMatch items "transcoding" with
      | some v => some v
      | none => acc.transcoding := by
  induction items generalizing acc with
  | nil => rfl
  | cons r t ih =>
    rw [List.foldl_cons, ih (scanItem acc r)]
    cases hm : lastMatch t "transcoding" with
    | some v => simp [lastMatch, hm]
    | none =>
      simp only [lastMatch, hm, scanItem_transcoding]
      by_cases hA : jsToLowerCase r.name = "transcoding" <;> simp [hA]

theorem foldl_scanItem_streaming (items : List LineItem) (acc : PlanLimits) :
    (items.foldl scanItem acc).streaming =
      match lastMatch items "delivery" with
      | some v => some v
      | none => acc.streaming := by
  induction items generalizing acc with
  | nil => rfl
  | cons r t ih =>
    rw [List.foldl_cons, ih (scanItem acc r)]
    cases hm : lastMatch t "delivery" with
    | some v => simp [lastMatch, hm]
    | none =>
      simp only [lastMatch, hm, scanItem_streaming]
      by_cases hB : jsToLowerCase r.name = "delivery" <;> simp [hB]

theorem foldl_scanItem_storage (items : List LineItem) (acc : PlanLimits) :
    (items.foldl scanItem acc).storage =
      match lastMatch items "storage" with
      | some v => some v
      | none => acc.storage := by
  induction items generalizing acc with
  | nil => rfl
  | cons r t ih =>
    rw [List.foldl_cons, ih (scanItem acc r)]
    cases hm : lastMatch t "storage" with
    | some v => simp [lastMatch, hm]
    | none =>
      simp only [lastMatch, hm, scanItem_storage]
      by_cases hC : jsToLowerCase r.name = "storage" <;> simp [hC]

/-- C7: the plan-limit scan is fully characterized by last-wins matching on
lowercased names — each resolved limit is the limit of the LAST line-item
whose lowercased name is, respectively, "transcoding", "delivery" (stored
under `streaming`) or "storage"; items with any other name are ignored, and
a plan with no matching line-items yields `lastMatch = none` three times,
i.e. all limits undefined, without error. -/
theorem resolveLimits_lastWins (items : List LineItem) :
    resolveLimits (some ⟨some items⟩) =
      { transcoding := lastMatch items "transcoding"
        streaming := lastMatch items "delivery"
        storage := lastMatch items "storage" } := by
  have ht := foldl_scanItem_transcoding items {}
  have hd := foldl_scanItem_streaming items {}
  have hs := foldl_scanItem_storage items {}
  have ht' : (items.foldl scanItem {}).transcoding =
      lastMatch items "transcoding" := by
    rw [ht]; cases lastMatch items "transcoding" <;> rfl
  have hd' : (items.foldl scanItem {}).streaming =
      lastMatch items "delivery" := by
    rw [hd]; cases lastMatch items "delivery" <;> rfl
  have hs' : (items.foldl scanItem {}).storage =
      lastMatch items "storage" := by
    rw [hs]; cases lastMatch items "storage" <;> rfl
  show items.foldl scanItem {} = _
  calc items.foldl scanItem {} =
      ⟨(items.foldl scanItem {}).transcoding,
        (items.foldl scanItem {}).streaming,
        (items.foldl scanItem {}).storage⟩ := rfl
    _ = _ := by rw [ht', hd', hs']

/-- One sync-loop iteration, pointwise: the period's own key is rebound to
the freshly fetched record (wholesale, whichever branch ran); every other
key is untouched. -/
theorem upsertUsageRow_apply (st : UsageStore) (r : UsageRow) (k : String) :
    upsertUsageRow st r k =
      if k = usageKey r then some (mkStoredUsage r) else st k := by
  unfold upsertUsageRow storeGet
  cases st (usageKey r) <;> rfl

/-- The whole sync loop, pointwise: a key that some fetched row maps to holds
the freshly fetched record of the LAST such row; any other key keeps its
previous binding. -/
theorem syncUsageRows_apply (usageHistory : List UsageRow) (st : UsageStore)
    (k : String) :
    syncUsageRows st usageHistory k =
      match lastRowFor usageHistory k with
      | some r => some (mkStoredUsage r)
      | none => st k := by
  induction usageHistory generalizing st with
  | nil => rfl
  | cons r t ih =>
    show syncUsageRows (upsertUsageRow st r) t k = _
    rw [ih (upsertUsageRow st r)]
    cases hm : lastRowFor t k with
    | some x => simp [lastRowFor, hm]
    | none =>
      simp only [lastRowFor, hm, upsertUsageRow_apply]
      by_cases hk : usageKey r = k
      · simp [hk]
      · have hk' : ¬ k = usageKey r := fun h => hk h.symm
        simp [hk, hk']

/-- C4: the per-period upsert loop is idempotent — if the fetch returns the
same period records both times, running the sync twice leaves the cache
identical to running it once: each period key ends up bound wholesale to the
freshly fetched record (replaced if present, created if absent), so the
second pass rewrites every binding with the value it already has. -/
theorem syncUsageRows_idempotent (st : UsageStore)
    (usageHistory : List UsageRow) :
    syncUsageRows (syncUsageRows st usageHistory) usageHistory =
      syncUsageRows st usageHistory := by
  funext k
  rw [syncUsageRows_apply]
  cases hm : lastRowFor usageHistory k with
  | some r => rw [syncUsageRows_apply, hm]
  | none => rfl

/-- The descending-by-date, limit-1 query returns a singleton holding a row
of maximal date whenever the table is non-empty. -/
theorem latestUsageRows_spec (table : List UsageRow) (hne : table ≠ []) :
    ∃ r, latestUsageRows table = [r] ∧ r ∈ table ∧
      ∀ y ∈ table, y.date ≤ r.date := by
  have htrans : ∀ a b c : UsageRow, (decide (b.date ≤ a.date)) = true →
      (decide (c.date ≤ b.date)) = true →
      (decide (c.date ≤ a.date)) = true := by
    intro a b c hab hbc
    exact decide_eq_true (le_trans (of_decide_eq_true hbc)
      (of_decide_eq_true hab))
  have htotal : ∀ a b : UsageRow,
      ((decide (b.date ≤ a.date)) || (decide (a.date ≤ b.date))) = true := by
    intro a b
    rcases le_total b.date a.date with h | h <;> simp [h]
  have hperm := List.mergeSort_perm table
    (fun a b => decide (b.date ≤ a.date))
  have hpw := List.sorted_mergeSort htrans htotal table
  cases hsort : table.mergeSort (fun a b => decide (b.date ≤ a.date)) with
  | nil =>
    rw [hsort] at hperm
    exact absurd hperm.symm.eq_nil hne
  | cons r rest =>
    rw [hsort] at hperm hpw
    refine ⟨r, ?_, ?_, ?_⟩
    · simp [latestUsageRows, hsort]
    · exact hperm.mem_iff.mp (List.mem_cons_self r rest)
    · intro y hy
      rcases List.mem_cons.mp (hperm.mem_iff.mpr hy) with rfl | hmem
      · exact le_refl _
      · exact of_decide_eq_true ((List.pairwise_cons.mp hpw).1 y hmem)

/-- A falsy `fromTime` parameter sends the handler to the watermark query. -/
theorem resolveUpdateFrom_falsy (fromTime : Option String)
    (table : List UsageRow) (hf : jsFalsyParam fromTime = true) :
    resolveUpdateFrom fromTime table = watermarkFrom table := by
  cases fromTime with
  | none => rfl
  | some s =>
    have hs : s = "" := by simpa [jsFalsyParam] using hf
    simp [resolveUpdateFrom, hs]

/-- C3: window resolution of `POST /update` — a truthy caller-supplied
`fromTime`/`toTime` is used unchanged; a falsy `fromTime` is replaced by the
`date` of a most-recent cached usage row (the descending-by-date limit-1
query) when one exists, and by the fixed January 2020 epoch start when the
cache is empty; a falsy `toTime` is replaced by the current time. -/
theorem updateWindowResolution (fromTime toTime : Option String)
    (table : List UsageRow) (now : ℚ) :
    (∀ s, fromTime = some s → s ≠ "" →
      resolveUpdateFrom fromTime table = TimeVal.str s) ∧
    (jsFalsyParam fromTime = true → table = [] →
      resolveUpdateFrom fromTime table = TimeVal.num dateJan2020) ∧
    (jsFalsyParam fromTime = true → table ≠ [] →
      ∃ r, r ∈ table ∧ (∀ y ∈ table, y.date ≤ r.date) ∧
        resolveUpdateFrom fromTime table = TimeVal.num r.date) ∧
    (∀ s, toTime = some s → s ≠ "" →
      resolveUpdateTo toTime now = TimeVal.str s) ∧
    (jsFalsyParam toTime = true → resolveUpdateTo toTime now =
      TimeVal.num now) := by
  refine ⟨fun s hs hne => ?_, fun hf htab => ?_, fun hf htab => ?_,
    fun s hs hne => ?_, fun hf => ?_⟩
  · subst hs; simp [resolveUpdateFrom, hne]
  · subst htab
    rw [resolveUpdateFrom_falsy fromTime [] hf]
    simp [watermarkFrom, latestUsageRows, List.mergeSort_nil]
  · obtain ⟨r, h1, h2, h3⟩ := latestUsageRows_spec table htab
    refine ⟨r, h2, h3, ?_⟩
    rw [resolveUpdateFrom_falsy fromTime table hf]
    simp [watermarkFrom, h1]
  · subst hs; simp [resolveUpdateTo, hne]
  · cases toTime with
    | none => rfl
    | some s =>
      have hs : s = "" := by simpa [jsFalsyParam] using hf
      simp [resolveUpdateTo, hs]

/-- Witness for C3: a supplied `fromTime` passes through; an empty cache
defaults to January 2020; a one-row cache yields that row's date; an absent
`toTime` becomes the current time. -/
theorem updateWindowResolution_witness :
    resolveUpdateFrom (some "123") [(⟨"a", 5, 0, 0, 0⟩ : UsageRow)] =
      TimeVal.str "123" ∧
    resolveUpdateFrom none [] = TimeVal.num dateJan2020 ∧
    (∃ r, r ∈ [(⟨"a", 5, 0, 0, 0⟩ : UsageRow)] ∧
      (∀ y ∈ [(⟨"a", 5, 0, 0, 0⟩ : UsageRow)], y.date ≤ r.date) ∧
      resolveUpdateFrom none [(⟨"a", 5, 0, 0, 0⟩ : UsageRow)] =
        TimeVal.num r.date) ∧
    resolveUpdateTo none 42 = TimeVal.num 42 :=
  ⟨(updateWindowResolution (some "123") none [⟨"a", 5, 0, 0, 0⟩] 42).1 "123"
      rfl (by decide),
   (updateWindowResolution none none [] 42).2.1 rfl rfl,
   (updateWindowResolution none none [⟨"a", 5, 0, 0, 0⟩] 42).2.2.1 rfl
      (List.cons_ne_nil _ _),
   (updateWindowResolution none none [] 42).2.2.2.2 rfl⟩

/-- C9: the query handlers default the window only when BOTH parameters are
falsy; when exactly one is supplied, the other passes through as
`undefined` (`none`) rather than being defaulted. -/
theorem queryWindowDefaulting (fromTime toTime : Option String) (now : ℚ) :
    (jsFalsyParam fromTime = true → jsFalsyParam toTime = true →
      resolveQueryWindow fromTime toTime now =
        (some (TimeVal.num dateJan2020), some (TimeVal.num now))) ∧
    (∀ s, s ≠ "" → resolveQueryWindow (some s) none now =
      (some (TimeVal.str s), none)) ∧
    (∀ s, s ≠ "" → resolveQueryWindow none (some s) now =
      (none, some (TimeVal.str s))) := by
  refine ⟨fun hf ht => ?_, fun s hs => ?_, fun s hs => ?_⟩
  · simp [resolveQueryWindow, hf, ht]
  · simp [resolveQueryWindow, jsFalsyParam, hs]
  · simp [resolveQueryWindow, jsFalsyParam, hs]

/-- Witness for C9: both absent defaults both; exactly one supplied leaves
the other `undefined`. -/
theorem queryWindowDefaulting_witness :
    resolveQueryWindow none none 7 =
      (some (TimeVal.num dateJan2020), some (TimeVal.num 7)) ∧
    resolveQueryWindow (some "5") none 7 = (some (TimeVal.str "5"), none) ∧
    resolveQueryWindow none (some "99") 7 = (none, some (TimeVal.str "99")) :=
  ⟨(queryWindowDefaulting none none 7).1 rfl rfl,
   (queryWindowDefaulting (some "5") none 7).2.1 "5" (by decide),
   (queryWindowDefaulting none (some "99") 7).2.2 "99" (by decide)⟩

/-- C10: with `newUsageReport = "true"` the handler sends the report-usage
result first but does not return: it still resolves the window, fetches the
usage history, performs every per-period cache write, and attempts a second
response carrying the sync result. -/
theorem postUpdate_report_still_syncs {ρ : Type}
    (newUsageReport fromTime toTime : Option String) (reportResult : ρ)
    (usageTable : List UsageRow)
    (fetchHistory : TimeVal → TimeVal → List UsageRow)
    (store : UsageStore) (now : ℚ)
    (h : newUsageReport = some "true") :
    (postUpdate newUsageReport fromTime toTime reportResult usageTable
        fetchHistory store now).1 =
      [UpdateResponse.report reportResult,
        UpdateResponse.history (fetchHistory
          (resolveUpdateFrom fromTime usageTable)
          (resolveUpdateTo toTime now))] ∧
    (postUpdate newUsageReport fromTime toTime reportResult usageTable
        fetchHistory store now).2 =
      syncUsageRows store (fetchHistory
        (resolveUpdateFrom fromTime usageTable)
        (resolveUpdateTo toTime now)) := by
  subst h
  constructor
  · simp [postUpdate]
  · rfl

/-- Witness for C10: a concrete invocation with the report flag set sends
two responses (report first, sync result second) and runs the sync loop. -/
theorem postUpdate_report_still_syncs_witness :
    (postUpdate (some "true") none none (3 : ℕ) []
        (fun _ _ => [⟨"d1", 11, 1, 2, 3⟩]) (fun _ => none) 42).1 =
      [UpdateResponse.report 3,
        UpdateResponse.history [⟨"d1", 11, 1, 2, 3⟩]] ∧
    (postUpdate (some "true") none none (3 : ℕ) []
        (fun _ _ => [⟨"d1", 11, 1, 2, 3⟩]) (fun _ => none) 42).2 =
      syncUsageRows (fun _ => none) [⟨"d1", 11, 1, 2, 3⟩] := by
  have h := postUpdate_report_still_syncs (some "true") none none (3 : ℕ) []
    (fun _ _ => [⟨"d1", 11, 1, 2, 3⟩]) (fun _ => none) 42 rfl
  exact ⟨h.1, h.2⟩
